import Mathlib

/-!
# ChessBoard.jsx: move-input state machine, destination preview, square naming,
clocks and rendering

A shallow embedding of `src/frontend/src/components/ChessBoard.jsx`.

* React state cells (`from`, `selectedSquare`) become the fields of `State`;
  every event handler becomes a function from the state before the event to
  the state after it together with the list of messages handed to
  `socket.emit`, in order.
* JavaScript truthiness is explicit: a state cell holds `null` (`none`) or a
  string, and `if (x)` succeeds iff the string is non-empty (`truthy`).
* `try { .. } catch (e) { .. }` is `tryCatch` in the `Except` monad.
* Clock values are exact rationals; CSS reversal classes are flags of the
  rendered grid, and `RenderedBoard.visual` gives the order on screen.
-/

namespace ChessBoard

/-! ## Data model -/

/-- A piece as delivered in the `board` prop: `{type, color}`. -/
structure Piece where
  type : String
  color : String
deriving DecidableEq, Repr

/-- The `move` field of an outbound proposal: `{ from, to }` (the fields carry
a trailing underscore because `from` and `to` are reserved words here). -/
structure MoveFromTo where
  from_ : String
  to_ : String
deriving DecidableEq, Repr

/-- The payload of `socket.emit(MOVE, { move: { from, to }, gameId })`. -/
structure Proposal where
  move : MoveFromTo
  gameId : String
deriving DecidableEq, Repr

/-- One call `socket.emit(event, payload)`. -/
structure Emit where
  event : String
  payload : Proposal
deriving DecidableEq, Repr

/-- The two selection cells of the component: `from` (the drag origin, line 19)
and `selectedSquare` (the click origin, line 20). `none` is `null`. -/
structure State where
  from_ : Option String
  selectedSquare : Option String
deriving DecidableEq, Repr

/-- The state after `useState(null)` for both cells. -/
def State.init : State := ⟨none, none⟩

/-- JavaScript truthiness of a value that is `null` or a string:
`null` and `""` are falsy, every other string is truthy. -/
def truthy : Option String → Bool
  | none => false
  | some s => s != ""

/-- A verbose move descriptor of the rules engine: origin, destination and,
for a promotion, the piece promoted to. The component reads only `to`. -/
structure Move where
  from_ : String
  to_ : String
  promotion : Option String
deriving DecidableEq, Repr

/-- The rules-engine handle passed as the `chess` prop. The call
`chess.moves({ square, verbose: true })` either returns the sequence of move
descriptors or throws (`Except.error` carries the thrown value). -/
structure Chess where
  moves : String → Except String (List Move)

/-! ## Square naming (lines 106-111) -/

/-- The call `String.fromCharCode(n)`: the one-character string of UTF-16 code
unit `n mod 2^16` (exact outside the surrogate range, which no column of a
board reaches). -/
def fromCharCode (n : Nat) : String :=
  String.singleton (Char.ofNat (n % 65536))

/-- Lines 108-111: `file = String.fromCharCode(97 + j)`, `rank = 8 - i`,
`squareRepresentation = file ++ rank` (template literal). -/
def squareRepresentation (i j : Nat) : String :=
  fromCharCode (97 + j) ++ toString (8 - (i : Int))

/-! ## Gesture handlers -/

/-- Lines 116-125, the `onDrop` handler of the cell named `squareRepresentation`.
The result is the state after the handler and the messages it emitted.
`MOVE` is the event name imported from `../constant`, taken as a parameter.
`socket` comes from `useSocket` (`contexts/SocketContext.jsx`, not among the
sources) and is taken to be a connected handle, the push channel of the
specification: `socket.emit` adds one message to the output and returns. -/
def onDrop (MOVE gameId squareRepresentation : String) (st : State) :
    State × List Emit :=
  match st.from_ with
  | some f =>
    if truthy (some f) then
      ({ from_ := none, selectedSquare := none },
        [⟨MOVE, ⟨⟨f, squareRepresentation⟩, gameId⟩⟩])
    else (st, [])
  | none => (st, [])

/-- Lines 127-144, the `onClick` handler of the cell named
`squareRepresentation` whose board entry is `square` (`none` for an empty
cell, and a piece object is truthy). -/
def onClick (MOVE gameId squareRepresentation : String) (square : Option Piece)
    (st : State) : State × List Emit :=
  if !truthy st.selectedSquare then
    if square.isSome then
      ({ st with selectedSquare := some squareRepresentation }, [])
    else (st, [])
  else
    match st.selectedSquare with
    | some sel =>
      if sel = squareRepresentation then
        ({ st with selectedSquare := none }, [])
      else
        ({ st with selectedSquare := none },
          [⟨MOVE, ⟨⟨sel, squareRepresentation⟩, gameId⟩⟩])
    | none => (st, [])

/-- Lines 170-172, the state part of `onDragStart` on the image of the cell
named `squareRepresentation` (the rest of the handler builds the drag image). -/
def onDragStart (squareRepresentation : String) (_st : State) :
    State × List Emit :=
  ({ from_ := some squareRepresentation, selectedSquare := none }, [])

/-- Lines 183-185, `onDragEnd`. -/
def onDragEnd (st : State) : State × List Emit :=
  ({ st with from_ := none }, [])

/-! ## Destination preview (lines 67-85) -/

/-- The body of a `try` block of the effect: query the engine for the moves
from `square` and keep their `to` fields. -/
def queryDestinations (chess : Chess) (square : String) :
    Except String (List String) := do
  let moves ← chess.moves square
  pure (moves.map (fun move => move.to_))

/-- The guard `origin && chess && started && !gameOver` of lines 68 and 75:
when it holds, the engine and the origin square it lets through. `started`
and `gameOver` are the truthiness of the props. -/
def activeQuery (origin : Option String) (chess : Option Chess)
    (started gameOver : Bool) : Option (Chess × String) :=
  match origin, chess with
  | some sq, some c =>
    if truthy (some sq) && started && !gameOver then some (c, sq) else none
  | _, _ => none

/-- Lines 67-85: the value the effect passes to `setValidMoves`, in the
`Except` monad so that an exception escaping the effect would show as
`Except.error`. -/
def validMovesEffect (selectedSquare from_ : Option String)
    (chess : Option Chess) (started gameOver : Bool) :
    Except String (List String) :=
  match activeQuery selectedSquare chess started gameOver with
  | some (c, sq) => tryCatch (queryDestinations c sq) (fun _ => pure [])
  | none =>
    match activeQuery from_ chess started gameOver with
    | some (c, sq) => tryCatch (queryDestinations c sq) (fun _ => pure [])
    | none => pure []

/-- The four moves of a white pawn on `e7` with `e8` free: one per promotion
piece, all with the same destination. -/
def promotionMoves : List Move :=
  [⟨"e7", "e8", some "q"⟩, ⟨"e7", "e8", some "r"⟩, ⟨"e7", "e8", some "b"⟩,
    ⟨"e7", "e8", some "n"⟩]

/-- A rules engine for the position with a white pawn on `e7` and `e8` free:
the pawn has four moves, one per promotion piece, all to `e8` (the shape of
the verbose answer of chess.js for a promoting pawn). Every other query
throws. -/
def promotionEngine : Chess where
  moves square :=
    if square = "e7" then .ok promotionMoves else .error "Invalid square"

/-- The eight moves of a white pawn on `e7` that may step to `e8` or capture on
`d8`, in the order of the engine: four promotions to `e8`, then four to `d8`. -/
def promotionCaptureMoves : List Move :=
  [⟨"e7", "e8", some "q"⟩, ⟨"e7", "e8", some "r"⟩, ⟨"e7", "e8", some "b"⟩,
    ⟨"e7", "e8", some "n"⟩, ⟨"e7", "d8", some "q"⟩, ⟨"e7", "d8", some "r"⟩,
    ⟨"e7", "d8", some "b"⟩, ⟨"e7", "d8", some "n"⟩]

/-- A rules engine answering `promotionCaptureMoves` on `e7` and throwing on
every other query. -/
def promotionCaptureEngine : Chess where
  moves square :=
    if square = "e7" then .ok promotionCaptureMoves else .error "Invalid square"

/-- The origin whose moves the effect queries: the `if` of line 68 tests the
click origin first, the `else if` of line 75 the drag origin. -/
def resolvedOrigin (st : State) : Option String :=
  if truthy st.selectedSquare then st.selectedSquare
  else if truthy st.from_ then st.from_
  else none

/-! ## Rendering: names and orientation (lines 96-111) -/

/-- One rendered cell: its React `key`, the `squareRepresentation` its handlers
close over, and its board entry. -/
structure RenderedCell where
  key : Nat
  name : String
  square : Option Piece
deriving DecidableEq, Repr

/-- One rendered row: `key`, whether the class list has `flex-row-reverse`,
and the cells in document order. -/
structure RenderedRow where
  key : Nat
  rowReverse : Bool
  cells : List RenderedCell
deriving DecidableEq, Repr

/-- The rendered grid: whether the container has `flex-col-reverse`, and the
rows in document order. -/
structure RenderedBoard where
  colReverse : Bool
  rows : List RenderedRow
deriving DecidableEq, Repr

/-- Lines 96-111: `board.map((row, i) => row.map((square, j) => ..))` under the
viewing `color` prop (`none` for a value that is not a string). -/
def renderBoard (board : List (List (Option Piece))) (color : Option String) :
    RenderedBoard :=
  { colReverse := color == some "black"
    rows := board.mapIdx fun i row =>
      { key := i
        rowReverse := color == some "black"
        cells := row.mapIdx fun j square =>
          { key := j, name := squareRepresentation i j, square := square } } }

/-- The names of the rendered cells, row by row in document order. -/
def RenderedBoard.names (r : RenderedBoard) : List (List String) :=
  r.rows.map fun row => row.cells.map fun cell => cell.name

/-- The file letters in column order. -/
def files : List Char := ['a', 'b', 'c', 'd', 'e', 'f', 'g', 'h']

/-- The 64 squares `a1 .. h8`: a file letter followed by a rank digit. -/
def allSquares : List String :=
  "abcdefgh".toList.flatMap fun f => "12345678".toList.map fun r => String.mk [f, r]

/-! ## Gesture sequences -/

/-- A gesture reaching the component: a click on, a drag start from, or a drop
on the cell with the given name, or the end of a drag. A click carries the board
entry of its cell at the time of the click. -/
inductive Gesture where
  | click (squareRepresentation : String) (square : Option Piece)
  | dragStart (squareRepresentation : String)
  | dragEnd
  | drop (squareRepresentation : String)
deriving DecidableEq, Repr

/-- Dispatch of one gesture to its handler. -/
def step (MOVE gameId : String) (st : State) : Gesture → State × List Emit
  | .click sq square => onClick MOVE gameId sq square st
  | .dragStart sq => onDragStart sq st
  | .dragEnd => onDragEnd st
  | .drop sq => onDrop MOVE gameId sq st

/-- The state after a sequence of gestures, starting from the initial state. -/
def run (MOVE gameId : String) (gs : List Gesture) : State :=
  gs.foldl (fun st g => (step MOVE gameId st g).1) State.init

/-- Whether the gesture, handled in state `st`, stores a square name in
`selectedSquare` (line 130, the only `setSelectedSquare` with a non-null
argument). -/
def setsSelected (st : State) : Gesture → Bool
  | .click _ square => !truthy st.selectedSquare && square.isSome
  | _ => false

/-- Whether the gesture stores a square name in `from` (line 171, the only
`setFrom` with a non-null argument). -/
def setsFrom : Gesture → Bool
  | .dragStart _ => true
  | _ => false

/-- The state together with a gesture counter and, for each cell, the count at
which a square name was last stored in it (0: never). -/
structure Timed where
  st : State
  clock : Nat
  fromAt : Nat
  selectedAt : Nat
deriving DecidableEq, Repr

/-- The initial timed state. -/
def Timed.init : Timed := ⟨State.init, 0, 0, 0⟩

/-- One gesture on a timed state: the state moves by `step`, the counter
advances, and a cell that receives a square name is stamped with the new
count. -/
def timedStep (MOVE gameId : String) (t : Timed) (g : Gesture) : Timed :=
  { st := (step MOVE gameId t.st g).1
    clock := t.clock + 1
    fromAt := if setsFrom g then t.clock + 1 else t.fromAt
    selectedAt := if setsSelected t.st g then t.clock + 1 else t.selectedAt }

/-- The timed state after a sequence of gestures. -/
def timedRun (MOVE gameId : String) (gs : List Gesture) : Timed :=
  gs.foldl (timedStep MOVE gameId) Timed.init

/-- Among the origins that are set, the one established last. -/
def latestSetOrigin (t : Timed) : Option String :=
  if truthy t.st.selectedSquare && truthy t.st.from_ then
    if t.fromAt < t.selectedAt then t.st.selectedSquare else t.st.from_
  else if truthy t.st.selectedSquare then t.st.selectedSquare
  else if truthy t.st.from_ then t.st.from_
  else none

/-! ## Props, component state and closures -/

/-- The props of the component (lines 6-18) that carry game data; `none` stands
for a value that is not a string, and `started`, `gameOver` are the
truthiness of the props. -/
structure Props where
  board : List (List (Option Piece))
  color : Option String
  started : Bool
  turn : Option String
  gameOver : Bool
  gameId : String
  chess : Option Chess

/-- The state cells of the component (lines 19-25): the two selection cells,
the two clocks in seconds (`none` is the initial `null`), the viewport flag
and the stored destination list. Numbers are exact rationals; the rounding
of floating-point division is not modelled. -/
structure Component where
  sel : State
  whiteTime : Option ℚ
  blackTime : Option ℚ
  isMobileView : Bool
  validMoves : List String
deriving DecidableEq

/-- The state cells after the `useState` calls of lines 19-25. -/
def Component.init : Component := ⟨State.init, none, none, false, []⟩

/-- A gesture handled by the closures of the render with props `p` and state
`c`: the handlers of lines 116-185 have all props and state cells in scope;
the cells they write are `from` and `selectedSquare`. -/
def handle (MOVE : String) (p : Props) (c : Component) (g : Gesture) :
    Component × List Emit :=
  ({ c with sel := (step MOVE p.gameId c.sel g).1 }, (step MOVE p.gameId c.sel g).2)

/-- The state after a sequence of gestures from state `st`, with every
message emitted on the way, in order. -/
def runFrom (MOVE gameId : String) (st : State) : List Gesture → State × List Emit
  | [] => (st, [])
  | g :: gs =>
    let r := step MOVE gameId st g
    let rest := runFrom MOVE gameId r.1 gs
    (rest.1, r.2 ++ rest.2)

/-- Whether a gesture is a drag start. -/
def Gesture.isDragStart : Gesture → Bool
  | .dragStart _ => true
  | _ => false

/-- An engine for the opening position queried on `e2`: the pawn may go to
`e3` or `e4`. Every other query throws. -/
def e2Engine : Chess where
  moves square :=
    if square = "e2" then .ok [⟨"e2", "e3", none⟩, ⟨"e2", "e4", none⟩]
    else .error "Invalid square"

/-! ## Clocks (lines 29-48) -/

/-- The payload of a `time_update` event: remaining milliseconds per side. -/
structure Clocks where
  white : ℚ
  black : ℚ
deriving DecidableEq

/-- Lines 30-35: the effect keyed on `gameResetTrigger`. -/
def resetEffect (c : Component) : Component :=
  { c with whiteTime := some 20, blackTime := some 20 }

/-- Lines 40-43: the `time_update` listener, `Math.max(0, clocks.white / 1000)`
and the same for black. -/
def onTimeUpdate (clocks : Clocks) (c : Component) : Component :=
  { c with
    whiteTime := some (max 0 (clocks.white / 1000))
    blackTime := some (max 0 (clocks.black / 1000)) }

/-! ## Profile cards (lines 90-95 and 203-208) -/

/-- Line 91: the `time` prop of the card above the board. -/
def upperCardTime (color : Option String) (c : Component) : Option ℚ :=
  if color = some "white" then c.blackTime else c.whiteTime

/-- Line 204: the `time` prop of the card below the board. -/
def lowerCardTime (color : Option String) (c : Component) : Option ℚ :=
  if color = some "white" then c.whiteTime else c.blackTime

/-! ## Cell content (lines 158-194) -/

/-- Line 159: whether the center dot is drawn in a cell,
`validMoves.includes(squareRepresentation) && !square`. -/
def dotShown (validMoves : List String) (cell : RenderedCell) : Bool :=
  validMoves.contains cell.name && !cell.square.isSome

/-- Line 164: whether the ring is drawn in a cell,
`validMoves.includes(squareRepresentation) && square`. -/
def ringShown (validMoves : List String) (cell : RenderedCell) : Bool :=
  validMoves.contains cell.name && cell.square.isSome

/-- The method `toLowerCase` of a string, exact on ASCII letters (the piece
letters). -/
def toLowerCase (s : String) : String :=
  String.mk (s.toList.map Char.toLower)

/-- Lines 188-191: the `src` of the image of a piece; the type is lowercased
in the second branch only. -/
def imgSrc (square : Piece) : String :=
  "/" ++ (if square.color = "b" then "b" ++ square.type
      else "w" ++ toLowerCase square.type) ++ ".png"

/-! ## Visual order -/

/-- The rows of the grid as laid out on screen, top to bottom and left to
right: `flex-col-reverse` lays the rows out bottom-up and `flex-row-reverse`
lays the cells of a row out right to left. -/
def RenderedBoard.visual (r : RenderedBoard) : List (List RenderedCell) :=
  (if r.colReverse then r.rows.reverse else r.rows).map fun row =>
    if row.rowReverse then row.cells.reverse else row.cells

/-- The names of the cells as laid out on screen. -/
def RenderedBoard.visualNames (r : RenderedBoard) : List (List String) :=
  r.visual.map fun row => row.map fun cell => cell.name

/-- A board of eight rows of eight empty cells. -/
def emptyBoard : List (List (Option Piece)) :=
  List.replicate 8 (List.replicate 8 none)

/-! ## Click and drag-and-drop handlers -/

/-- C1. With the click origin set to a square `o`, a click on a square `s`
(occupied or empty) clears the click origin and leaves the drag origin as it
was; it emits nothing when `s = o`, and exactly the proposal
`{move: {from: o, to: s}, gameId}` when `s ≠ o`. -/
theorem onClick_with_click_origin (MOVE gameId o s : String)
    (square : Option Piece) (st : State)
    (hsel : st.selectedSquare = some o) (ho : o ≠ "") :
    (onClick MOVE gameId s square st).1.selectedSquare = none ∧
    (onClick MOVE gameId s square st).1.from_ = st.from_ ∧
    (s = o → (onClick MOVE gameId s square st).2 = []) ∧
    (s ≠ o → (onClick MOVE gameId s square st).2 =
      [{ event := MOVE, payload := { move := { from_ := o, to_ := s }, gameId := gameId } }]) := by
  have ht : truthy (some o) = true := by simpa [truthy] using ho
  by_cases h : o = s
  · subst h
    simp [onClick, hsel, ht]
  · have h2 : ¬ s = o := fun e => h e.symm
    simp [onClick, hsel, ht, h, h2]

/-- Instance of C1: origin `e2`, click on `e4` with a drag origin `a7` present. -/
theorem onClick_with_click_origin_witness :
    (State.mk (some "a7") (some "e2")).selectedSquare = some "e2" ∧ "e2" ≠ "" ∧
    (onClick "move" "g1" "e4" none ⟨some "a7", some "e2"⟩).1.selectedSquare = none ∧
    (onClick "move" "g1" "e4" none ⟨some "a7", some "e2"⟩).1.from_ = some "a7" ∧
    ("e4" = "e2" → (onClick "move" "g1" "e4" none ⟨some "a7", some "e2"⟩).2 = []) ∧
    ("e4" ≠ "e2" → (onClick "move" "g1" "e4" none ⟨some "a7", some "e2"⟩).2 =
      [{ event := "move", payload := { move := { from_ := "e2", to_ := "e4" }, gameId := "g1" } }]) :=
  ⟨rfl, by decide,
    onClick_with_click_origin "move" "g1" "e2" "e4" none ⟨some "a7", some "e2"⟩ rfl (by decide)⟩

/-- C2. With the click origin unset, a click on a square `s` emits nothing and
leaves the drag origin as it was; it sets the click origin to `s` when the
board holds a piece on `s`, and changes nothing when `s` is empty. -/
theorem onClick_idle (MOVE gameId s : String) (square : Option Piece)
    (st : State) (hidle : truthy st.selectedSquare = false) :
    (onClick MOVE gameId s square st).2 = [] ∧
    (onClick MOVE gameId s square st).1.from_ = st.from_ ∧
    (square.isSome = true →
      (onClick MOVE gameId s square st).1.selectedSquare = some s) ∧
    (square = none → (onClick MOVE gameId s square st).1 = st) := by
  cases square <;> simp [onClick, hidle]

/-- Instance of C2: idle state with a drag origin, click on the pawn of `e2`. -/
theorem onClick_idle_witness :
    truthy (State.mk (some "a7") none).selectedSquare = false ∧
    (onClick "move" "g1" "e2" (some ⟨"p", "w"⟩) ⟨some "a7", none⟩).2 = [] ∧
    (onClick "move" "g1" "e2" (some ⟨"p", "w"⟩) ⟨some "a7", none⟩).1.from_ = some "a7" ∧
    ((some (Piece.mk "p" "w")).isSome = true →
      (onClick "move" "g1" "e2" (some ⟨"p", "w"⟩) ⟨some "a7", none⟩).1.selectedSquare
        = some "e2") ∧
    (some (Piece.mk "p" "w") = none →
      (onClick "move" "g1" "e2" (some ⟨"p", "w"⟩) ⟨some "a7", none⟩).1
        = ⟨some "a7", none⟩) :=
  ⟨rfl, onClick_idle "move" "g1" "e2" (some ⟨"p", "w"⟩) ⟨some "a7", none⟩ rfl⟩

/-- C3. A drop on a square `s`: with the drag origin set to `d` it emits exactly
the proposal `{move: {from: d, to: s}, gameId}` and leaves both origins unset;
with the drag origin unset it emits nothing and leaves the whole state as it
was, a click origin included. -/
theorem onDrop_spec (MOVE gameId s : String) (st : State) :
    (∀ d, st.from_ = some d → d ≠ "" →
      onDrop MOVE gameId s st =
        ({ from_ := none, selectedSquare := none },
          [{ event := MOVE, payload := { move := { from_ := d, to_ := s }, gameId := gameId } }])) ∧
    (truthy st.from_ = false → onDrop MOVE gameId s st = (st, [])) := by
  constructor
  · intro d hd hne
    have ht : truthy (some d) = true := by simpa [truthy] using hne
    simp [onDrop, hd, ht]
  · intro hf
    cases hfrom : st.from_ with
    | none => simp [onDrop, hfrom]
    | some f =>
      rw [hfrom] at hf
      simp [onDrop, hfrom, hf]

/-- Instance of C3: a drop on `e4` with drag origin `e2`, and the same drop
with no drag origin while the click origin `a7` is held. -/
theorem onDrop_spec_witness :
    onDrop "move" "g1" "e4" ⟨some "e2", some "a7"⟩ =
      ({ from_ := none, selectedSquare := none },
        [{ event := "move", payload := { move := { from_ := "e2", to_ := "e4" }, gameId := "g1" } }]) ∧
    onDrop "move" "g1" "e4" ⟨none, some "a7"⟩ = (⟨none, some "a7"⟩, []) :=
  ⟨(onDrop_spec "move" "g1" "e4" ⟨some "e2", some "a7"⟩).1 "e2" rfl (by decide),
    (onDrop_spec "move" "g1" "e4" ⟨none, some "a7"⟩).2 rfl⟩

/-- C4. Drag precedence: in every state, a drag start on a square `d` sets the
drag origin to `d` and clears the click origin, emitting nothing; a drop on
`t` that follows at once emits exactly the proposal from `d` to `t` and leaves
both origins unset, whatever the click origin was before the drag. -/
theorem dragStart_then_drop (MOVE gameId d t : String) (st : State)
    (hd : d ≠ "") :
    onDragStart d st = ({ from_ := some d, selectedSquare := none }, []) ∧
    onDrop MOVE gameId t (onDragStart d st).1 =
      ({ from_ := none, selectedSquare := none },
        [{ event := MOVE, payload := { move := { from_ := d, to_ := t }, gameId := gameId } }]) := by
  have ht : truthy (some d) = true := by simpa [truthy] using hd
  simp [onDragStart, onDrop, ht]

/-- Instance of C4: click origin `e2` held, drag from `g8`, drop on `f6`. -/
theorem dragStart_then_drop_witness :
    "g8" ≠ "" ∧
    onDragStart "g8" ⟨none, some "e2"⟩ = ({ from_ := some "g8", selectedSquare := none }, []) ∧
    onDrop "move" "g1" "f6" (onDragStart "g8" ⟨none, some "e2"⟩).1 =
      ({ from_ := none, selectedSquare := none },
        [{ event := "move", payload := { move := { from_ := "g8", to_ := "f6" }, gameId := "g1" } }]) :=
  ⟨by decide, dragStart_then_drop "move" "g1" "g8" "f6" ⟨none, some "e2"⟩ (by decide)⟩

/-! ## Destination preview -/

/-- The `try`/`catch` of the effect on a query that returns. -/
theorem tryCatch_query_ok (c : Chess) (sq : String) (ms : List Move)
    (h : c.moves sq = .ok ms) :
    (tryCatch (queryDestinations c sq) (fun _ => pure []) : Except String (List String))
      = .ok (ms.map fun move => move.to_) := by
  simp only [queryDestinations, h]
  rfl

/-- The `try`/`catch` of the effect on a query that throws. -/
theorem tryCatch_query_error (c : Chess) (sq e : String)
    (h : c.moves sq = .error e) :
    (tryCatch (queryDestinations c sq) (fun _ => pure []) : Except String (List String))
      = .ok [] := by
  simp only [queryDestinations, h]
  rfl

/-- The guard lets a truthy origin through when the game is active and an
engine is present. -/
theorem activeQuery_active (o : String) (c : Chess) (ho : o ≠ "") :
    activeQuery (some o) (some c) true false = some (c, o) := by
  have ht : truthy (some o) = true := by simpa [truthy] using ho
  simp [activeQuery, ht]

/-- The guard stops a falsy origin. -/
theorem activeQuery_falsy (o : Option String) (chess : Option Chess)
    (started gameOver : Bool) (ho : truthy o = false) :
    activeQuery o chess started gameOver = none := by
  unfold activeQuery
  split
  · rename_i sq c
    simp [ho]
  · rfl

/-- The guard stops every origin when the game is not active or no engine is
present. -/
theorem activeQuery_inactive (o : Option String) (chess : Option Chess)
    (started gameOver : Bool)
    (h : started = false ∨ gameOver = true ∨ chess = none) :
    activeQuery o chess started gameOver = none := by
  unfold activeQuery
  split
  · rename_i sq c
    rcases h with h | h | h
    · simp [h]
    · simp [h]
    · cases h
  · rfl

/-- The effect reads the two origins only through `resolvedOrigin`. -/
theorem validMovesEffect_resolved (st : State) (chess : Option Chess)
    (started gameOver : Bool) :
    validMovesEffect st.selectedSquare st.from_ chess started gameOver =
      match activeQuery (resolvedOrigin st) chess started gameOver with
      | some (c, sq) => tryCatch (queryDestinations c sq) (fun _ => pure [])
      | none => pure [] := by
  unfold validMovesEffect resolvedOrigin
  cases hs : truthy st.selectedSquare with
  | false =>
    rw [activeQuery_falsy _ _ _ _ hs]
    cases hf : truthy st.from_ with
    | false =>
      rw [activeQuery_falsy _ _ _ _ hf]
      simp [activeQuery]
    | true => simp
  | true =>
    simp only [if_true]
    cases ha : activeQuery st.selectedSquare chess started gameOver with
    | some p => rfl
    | none =>
      have hin : started = false ∨ gameOver = true ∨ chess = none := by
        cases hsel : st.selectedSquare with
        | none => rw [hsel] at hs; simp [truthy] at hs
        | some o =>
          rw [hsel] at hs ha
          cases chess with
          | none => exact Or.inr (Or.inr rfl)
          | some c =>
            cases started <;> cases gameOver <;> simp [activeQuery, hs] at ha ⊢
      rw [activeQuery_inactive _ _ _ _ hin]

/-- An origin the effect resolves is a non-empty name. -/
theorem resolvedOrigin_ne_empty (st : State) (o : String)
    (h : resolvedOrigin st = some o) : o ≠ "" := by
  unfold resolvedOrigin at h
  split at h
  · rename_i hs
    rw [h] at hs
    simpa [truthy] using hs
  · split at h
    · rename_i hf
      rw [h] at hf
      simpa [truthy] using hf
    · cases h

/-- The effect on an active game whose resolved origin is `o`. -/
theorem validMovesEffect_active (st : State) (c : Chess) (o : String)
    (h : resolvedOrigin st = some o) :
    validMovesEffect st.selectedSquare st.from_ (some c) true false =
      tryCatch (queryDestinations c o) (fun _ => pure []) := by
  rw [validMovesEffect_resolved, h,
    activeQuery_active o c (resolvedOrigin_ne_empty st o h)]

/-- C5. Highlight degradation: whatever the two origins and the engine are,
the effect stores the empty list when the game has not started, or is over,
or both origins are unset, or no engine handle is supplied. -/
theorem validMoves_degraded (selectedSquare from_ : Option String)
    (chess : Option Chess) (started gameOver : Bool)
    (h : started = false ∨ gameOver = true ∨
      (truthy selectedSquare = false ∧ truthy from_ = false) ∨ chess = none) :
    validMovesEffect selectedSquare from_ chess started gameOver = .ok [] := by
  unfold validMovesEffect
  rcases h with h | h | ⟨hs, hf⟩ | h
  · rw [activeQuery_inactive _ _ _ _ (Or.inl h), activeQuery_inactive _ _ _ _ (Or.inl h)]
    rfl
  · rw [activeQuery_inactive _ _ _ _ (Or.inr (Or.inl h)),
      activeQuery_inactive _ _ _ _ (Or.inr (Or.inl h))]
    rfl
  · rw [activeQuery_falsy _ _ _ _ hs, activeQuery_falsy _ _ _ _ hf]
    rfl
  · rw [activeQuery_inactive _ _ _ _ (Or.inr (Or.inr h)),
      activeQuery_inactive _ _ _ _ (Or.inr (Or.inr h))]
    rfl

/-- Instance of C5: origin `e7` selected and an engine with four moves from
it, but the game is over. -/
theorem validMoves_degraded_witness :
    (true = false ∨ true = true ∨
      (truthy (some "e7") = false ∧ truthy none = false) ∨
      some promotionEngine = none) ∧
    validMovesEffect (some "e7") none (some promotionEngine) true true = .ok [] :=
  ⟨Or.inr (Or.inl rfl),
    validMoves_degraded (some "e7") none (some promotionEngine) true true
      (Or.inr (Or.inl rfl))⟩

/-- C6. Click-origin precedence: on an active game with an engine, when the
click origin `cs` is set the effect stores the `to` fields of the moves the
engine lists from `cs` (the empty list when that query throws), whatever the
drag origin is and whatever the engine answers elsewhere; the moves from the
drag origin `f` are stored when the click origin is unset and `f` is set. -/
theorem click_origin_precedence (c : Chess) (cs : String) (hcs : cs ≠ "") :
    (∀ d ms, c.moves cs = .ok ms →
      validMovesEffect (some cs) d (some c) true false
        = .ok (ms.map fun move => move.to_)) ∧
    (∀ d e, c.moves cs = .error e →
      validMovesEffect (some cs) d (some c) true false = .ok []) ∧
    (∀ d d2 (c2 : Chess), c2.moves cs = c.moves cs →
      validMovesEffect (some cs) d2 (some c2) true false
        = validMovesEffect (some cs) d (some c) true false) ∧
    (∀ sel f ms, truthy sel = false → f ≠ "" → c.moves f = .ok ms →
      validMovesEffect sel (some f) (some c) true false
        = .ok (ms.map fun move => move.to_)) := by
  have key : ∀ (d : Option String) (c2 : Chess),
      validMovesEffect (some cs) d (some c2) true false
        = tryCatch (queryDestinations c2 cs) (fun _ => pure []) := by
    intro d c2
    unfold validMovesEffect
    rw [activeQuery_active cs c2 hcs]
  refine ⟨?_, ?_, ?_, ?_⟩
  · intro d ms hms
    rw [key, tryCatch_query_ok c cs ms hms]
  · intro d e he
    rw [key, tryCatch_query_error c cs e he]
  · intro d d2 c2 h2
    rw [key, key]
    simp only [queryDestinations, h2]
  · intro sel f ms hsel hf hms
    unfold validMovesEffect
    rw [activeQuery_falsy _ _ _ _ hsel, activeQuery_active f c hf]
    exact tryCatch_query_ok c f ms hms

/-- Instance of C6: click origin `e7` with drag origin `a2`; the engine
answers four moves from `e7` and throws on `a2`. -/
theorem click_origin_precedence_witness :
    "e7" ≠ "" ∧
    validMovesEffect (some "e7") (some "a2") (some promotionEngine) true false
      = .ok ["e8", "e8", "e8", "e8"] :=
  ⟨by decide,
    (click_origin_precedence promotionEngine "e7" (by decide)).1 (some "a2")
      promotionMoves rfl⟩

/-- C7 as stated fails: for a promoting pawn the engine lists four moves to
the same square, and the stored list holds that square four times. -/
theorem validMoves_duplicates :
    validMovesEffect (some "e7") none (some promotionEngine) true false
      = .ok ["e8", "e8", "e8", "e8"] ∧
    ¬ (["e8", "e8", "e8", "e8"] : List String).Nodup :=
  ⟨rfl, by decide⟩

/-- C7, amended. On an active game whose resolved origin is `o`, when the
engine answers `ms` the stored list is the list of the destinations of the
descriptors of `ms`, in the order of `ms` and with repetition: its `k`-th
entry is the destination of the `k`-th descriptor, a square occurs in it as
often as `ms` has descriptors with that destination, and its elements are
unique exactly when no two descriptors of `ms` share a destination. -/
theorem validMoves_multiplicity (st : State) (c : Chess) (o : String)
    (ms : List Move) (ho : resolvedOrigin st = some o)
    (hms : c.moves o = .ok ms) :
    ∃ ds, validMovesEffect st.selectedSquare st.from_ (some c) true false = .ok ds ∧
      ds = ms.map (fun move => move.to_) ∧
      ds.length = ms.length ∧
      (∀ k : Nat, ds[k]? = (ms[k]?).map (fun (move : Move) => move.to_)) ∧
      (∀ s, ds.count s = ms.countP (fun move => move.to_ == s)) ∧
      (ds.Nodup ↔ ms.Pairwise (fun a b => a.to_ ≠ b.to_)) := by
  refine ⟨ms.map fun move => move.to_, ?_, rfl, ?_, ?_, ?_, ?_⟩
  · rw [validMovesEffect_active st c o ho, tryCatch_query_ok c o ms hms]
  · simp
  · intro k
    exact List.getElem?_map _ _ _
  · intro s
    rw [List.count, List.countP_map]
    rfl
  · rw [List.Nodup, List.pairwise_map]

/-- Instance of C7 amended: the pawn on `e7` that promotes on `e8` or by a
capture on `d8`; the stored list keeps the order and the repetitions of the
answer. -/
theorem validMoves_multiplicity_witness :
    resolvedOrigin ⟨none, some "e7"⟩ = some "e7" ∧
    promotionCaptureEngine.moves "e7" = .ok promotionCaptureMoves ∧
    ∃ ds, validMovesEffect (some "e7") none (some promotionCaptureEngine) true false
        = .ok ds ∧
      ds = ["e8", "e8", "e8", "e8", "d8", "d8", "d8", "d8"] ∧
      ds.length = promotionCaptureMoves.length ∧
      (∀ k : Nat, ds[k]? = (promotionCaptureMoves[k]?).map (fun (move : Move) => move.to_)) ∧
      (∀ s, ds.count s = promotionCaptureMoves.countP (fun move => move.to_ == s)) ∧
      (ds.Nodup ↔ promotionCaptureMoves.Pairwise (fun a b => a.to_ ≠ b.to_)) :=
  ⟨rfl, rfl,
    validMoves_multiplicity ⟨none, some "e7"⟩ promotionCaptureEngine "e7"
      promotionCaptureMoves rfl rfl⟩

/-- C8. On an active game whose resolved origin (click or drag) is `o`, when
the engine query for `o` throws, the effect completes normally and stores
the empty list. -/
theorem validMoves_query_failure (st : State) (c : Chess) (o e : String)
    (ho : resolvedOrigin st = some o) (hfail : c.moves o = .error e) :
    validMovesEffect st.selectedSquare st.from_ (some c) true false = .ok [] := by
  rw [validMovesEffect_active st c o ho, tryCatch_query_error c o e hfail]

/-- Instance of C8: drag origin `a2`, on which the engine throws. -/
theorem validMoves_query_failure_witness :
    resolvedOrigin ⟨some "a2", none⟩ = some "a2" ∧
    promotionEngine.moves "a2" = .error "Invalid square" ∧
    validMovesEffect none (some "a2") (some promotionEngine) true false = .ok [] :=
  ⟨rfl, rfl,
    validMoves_query_failure ⟨some "a2", none⟩ promotionEngine "a2" "Invalid square"
      rfl rfl⟩

/-! ## Square naming -/

set_option maxRecDepth 100000 in
/-- On the 8 x 8 grid the name is the file letter of the column followed by
the rank `8 - i`. -/
theorem squareRepresentation_grid : ∀ i j : Fin 8,
    squareRepresentation i j = String.singleton (files.get j) ++ toString (8 - i.val) := by
  decide

set_option maxRecDepth 100000 in
/-- Distinct grid positions get distinct names. -/
theorem squareRepresentation_injective :
    Function.Injective (fun p : Fin 8 × Fin 8 => squareRepresentation p.1 p.2) := by
  decide

set_option maxRecDepth 100000 in
/-- Every square of `a1 .. h8` is the name of a grid position. -/
theorem allSquares_named : ∀ s ∈ allSquares,
    ∃ i j : Fin 8, squareRepresentation i j = s := by
  decide

set_option maxRecDepth 100000 in
/-- Every grid position is named by a square of `a1 .. h8`. -/
theorem squareRepresentation_mem : ∀ i j : Fin 8,
    squareRepresentation i j ∈ allSquares := by
  decide

/-- The names attached to the rendered cells are computed from the row and
column index alone. -/
theorem renderBoard_names (board : List (List (Option Piece)))
    (color : Option String) :
    (renderBoard board color).names =
      board.mapIdx fun i row => row.mapIdx fun j _ => squareRepresentation i j := by
  unfold renderBoard RenderedBoard.names
  apply List.ext_getElem?
  intro i
  simp only [List.getElem?_map, List.getElem?_mapIdx]
  cases board[i]? with
  | none => rfl
  | some row =>
    simp only [Option.map_some']
    congr 1
    apply List.ext_getElem?
    intro j
    simp only [List.getElem?_map, List.getElem?_mapIdx]
    cases row[j]? <;> rfl

/-- A square name is never the empty string, so a cell that stores one is
truthy. -/
theorem squareRepresentation_ne_empty (i j : Nat) : squareRepresentation i j ≠ "" := by
  intro h
  have hl := congrArg String.length h
  simp [squareRepresentation, fromCharCode, String.length_append] at hl

/-- C9. Naming bijection: on the grid `0..7 x 0..7` the name of position
`(i, j)` is the `j`-th file letter of `a..h` followed by the rank `8 - i`; the
map is injective; its image is exactly the 64 squares `a1 .. h8`; and the
names of the rendered cells are the same for every viewing color, `(0,0)`
being `a8` and `(7,4)` being `e1`. -/
theorem naming_bijection :
    (∀ i j : Fin 8, squareRepresentation i j =
      String.singleton (files.get j) ++ toString (8 - i.val)) ∧
    Function.Injective (fun p : Fin 8 × Fin 8 => squareRepresentation p.1 p.2) ∧
    (∀ s, s ∈ allSquares ↔ ∃ i j : Fin 8, squareRepresentation i j = s) ∧
    allSquares.length = 64 ∧ allSquares.Nodup ∧
    (∀ (board : List (List (Option Piece))) (color : Option String),
      (renderBoard board color).names =
        board.mapIdx fun i row => row.mapIdx fun j _ => squareRepresentation i j) ∧
    (∀ (board : List (List (Option Piece))) (color color2 : Option String),
      (renderBoard board color).names = (renderBoard board color2).names) ∧
    squareRepresentation 0 0 = "a8" ∧ squareRepresentation 7 4 = "e1" := by
  refine ⟨squareRepresentation_grid, squareRepresentation_injective, ?_, by decide,
    by decide, renderBoard_names, ?_, by decide, by decide⟩
  · intro s
    constructor
    · exact allSquares_named s
    · rintro ⟨i, j, rfl⟩
      exact squareRepresentation_mem i j
  · intro board color color2
    rw [renderBoard_names, renderBoard_names]

/-! ## Gesture sequences: which origin the preview follows -/

/-- Running one more gesture. -/
theorem timedRun_append (MOVE gameId : String) (gs : List Gesture) (g : Gesture) :
    timedRun MOVE gameId (gs ++ [g]) = timedStep MOVE gameId (timedRun MOVE gameId gs) g := by
  simp [timedRun, List.foldl_append]

/-- Running one more gesture, on the plain state. -/
theorem run_append (MOVE gameId : String) (gs : List Gesture) (g : Gesture) :
    run MOVE gameId (gs ++ [g]) = (step MOVE gameId (run MOVE gameId gs) g).1 := by
  simp [run, List.foldl_append]

/-- The timed run carries the state of the plain run. -/
theorem timedRun_st (MOVE gameId : String) (gs : List Gesture) :
    (timedRun MOVE gameId gs).st = run MOVE gameId gs := by
  induction gs using List.reverseRecOn with
  | nil => rfl
  | append_singleton gs g ih =>
    rw [timedRun_append, run_append, ← ih]
    rfl

/-- The state after `onDrop`. -/
theorem onDrop_state (MOVE gameId sq : String) (st : State) :
    (onDrop MOVE gameId sq st).1 =
      if truthy st.from_ then { from_ := none, selectedSquare := none } else st := by
  unfold onDrop
  cases hf : st.from_ with
  | none => simp [truthy]
  | some f => cases ht : truthy (some f) <;> simp [ht]

/-- The state after `onClick`. -/
theorem onClick_state (MOVE gameId sq : String) (square : Option Piece) (st : State) :
    (onClick MOVE gameId sq square st).1 =
      if truthy st.selectedSquare then { st with selectedSquare := none }
      else if square.isSome then { st with selectedSquare := some sq }
      else st := by
  unfold onClick
  cases ht : truthy st.selectedSquare with
  | false => cases square <;> simp
  | true =>
    cases hsel : st.selectedSquare with
    | none => simp [hsel, truthy] at ht
    | some o => by_cases ho : o = sq <;> simp [ho]

/-- The stamps follow the handlers: a gesture flagged by `setsSelected` or
`setsFrom` stores the name of its cell in that state cell, and a gesture not
flagged leaves the cell as it was or nulls it. -/
theorem stamps_sound (MOVE gameId : String) (st : State) (g : Gesture) :
    (setsSelected st g = true →
      ∃ sq square, g = .click sq square ∧
        (step MOVE gameId st g).1.selectedSquare = some sq) ∧
    (setsSelected st g = false →
      (step MOVE gameId st g).1.selectedSquare = st.selectedSquare ∨
      (step MOVE gameId st g).1.selectedSquare = none) ∧
    (setsFrom g = true →
      ∃ sq, g = .dragStart sq ∧ (step MOVE gameId st g).1.from_ = some sq) ∧
    (setsFrom g = false →
      (step MOVE gameId st g).1.from_ = st.from_ ∨
      (step MOVE gameId st g).1.from_ = none) := by
  cases g with
  | click sq square =>
    simp only [step, onClick_state, setsSelected, setsFrom]
    cases ht : truthy st.selectedSquare <;> cases square <;> simp
  | dragStart sq =>
    simp [step, onDragStart, setsSelected, setsFrom]
  | dragEnd =>
    simp [step, onDragEnd, setsSelected, setsFrom]
  | drop sq =>
    simp only [step, onDrop_state, setsSelected, setsFrom]
    cases ht : truthy st.from_ <;> simp

/-- One gesture keeps the order of the stamps: no stamp gets ahead of the
counter, and when both origins are set afterwards the click origin carries
the later stamp. -/
theorem timedStep_order (MOVE gameId : String) (t : Timed) (g : Gesture)
    (hf : t.fromAt ≤ t.clock) (hs : t.selectedAt ≤ t.clock) :
    (timedStep MOVE gameId t g).fromAt ≤ (timedStep MOVE gameId t g).clock ∧
    (timedStep MOVE gameId t g).selectedAt ≤ (timedStep MOVE gameId t g).clock ∧
    (truthy (timedStep MOVE gameId t g).st.selectedSquare = true →
      truthy (timedStep MOVE gameId t g).st.from_ = true →
      (timedStep MOVE gameId t g).fromAt < (timedStep MOVE gameId t g).selectedAt) := by
  cases g with
  | click sq square =>
    simp only [timedStep, setsFrom, setsSelected, step, onClick_state]
    by_cases ht : truthy t.st.selectedSquare = true
    · refine ⟨by simp; omega, by simp [ht]; omega, ?_⟩
      intro h1
      rw [if_pos ht] at h1
      simp [truthy] at h1
    · cases square with
      | none =>
        refine ⟨by simp; omega, by simp; omega, ?_⟩
        intro h1
        simp [ht] at h1
      | some p =>
        refine ⟨by simp; omega, by simp [ht], ?_⟩
        intro _ _
        simp [ht]
        omega
  | dragStart sq =>
    simp only [timedStep, setsFrom, setsSelected, step, onDragStart]
    refine ⟨by simp, by simp; omega, ?_⟩
    intro h1
    simp [truthy] at h1
  | dragEnd =>
    simp only [timedStep, setsFrom, setsSelected, step, onDragEnd]
    refine ⟨by simp; omega, by simp; omega, ?_⟩
    intro _ h2
    simp [truthy] at h2
  | drop sq =>
    simp only [timedStep, setsFrom, setsSelected, step, onDrop_state]
    refine ⟨by simp; omega, by simp; omega, ?_⟩
    by_cases htf : truthy t.st.from_ = true
    · intro h1
      rw [if_pos htf] at h1
      simp [truthy] at h1
    · intro _ h2
      simp [htf] at h2

/-- In every state reached by gestures, no stamp is ahead of the counter and,
when both origins are set, the click origin carries the later stamp. -/
theorem timedRun_order (MOVE gameId : String) (gs : List Gesture) :
    (timedRun MOVE gameId gs).fromAt ≤ (timedRun MOVE gameId gs).clock ∧
    (timedRun MOVE gameId gs).selectedAt ≤ (timedRun MOVE gameId gs).clock ∧
    (truthy (timedRun MOVE gameId gs).st.selectedSquare = true →
      truthy (timedRun MOVE gameId gs).st.from_ = true →
      (timedRun MOVE gameId gs).fromAt < (timedRun MOVE gameId gs).selectedAt) := by
  induction gs using List.reverseRecOn with
  | nil =>
    refine ⟨Nat.le_refl _, Nat.le_refl _, ?_⟩
    intro h
    simp [timedRun, Timed.init, State.init, truthy] at h
  | append_singleton gs g ih =>
    rw [timedRun_append]
    exact timedStep_order MOVE gameId _ g ih.1 ih.2.1

/-- C10. In the state reached from the initial state by any sequence of
gestures: whenever click origin and drag origin are both set, the click origin
was stored after the drag origin; so the origin the highlight computation
resolves (click origin first, else drag origin) is the most recently stored
origin that is still set, and the effect computes its list from that one. -/
theorem preview_follows_latest_origin (MOVE gameId : String) (gs : List Gesture) :
    (timedRun MOVE gameId gs).st = run MOVE gameId gs ∧
    (truthy (run MOVE gameId gs).selectedSquare = true →
      truthy (run MOVE gameId gs).from_ = true →
      (timedRun MOVE gameId gs).fromAt < (timedRun MOVE gameId gs).selectedAt) ∧
    resolvedOrigin (run MOVE gameId gs) = latestSetOrigin (timedRun MOVE gameId gs) ∧
    (∀ (chess : Option Chess) (started gameOver : Bool),
      validMovesEffect (run MOVE gameId gs).selectedSquare (run MOVE gameId gs).from_
          chess started gameOver =
        match activeQuery (latestSetOrigin (timedRun MOVE gameId gs)) chess started gameOver with
        | some (c, sq) => tryCatch (queryDestinations c sq) (fun _ => pure [])
        | none => pure []) := by
  have hst := timedRun_st MOVE gameId gs
  have hord := (timedRun_order MOVE gameId gs).2.2
  rw [hst] at hord
  have hres : resolvedOrigin (run MOVE gameId gs)
      = latestSetOrigin (timedRun MOVE gameId gs) := by
    unfold resolvedOrigin latestSetOrigin
    rw [hst]
    by_cases hs : truthy (run MOVE gameId gs).selectedSquare = true
    · by_cases hf : truthy (run MOVE gameId gs).from_ = true
      · simp [hs, hf, hord hs hf]
      · simp [hs, hf]
    · simp [hs]
  refine ⟨hst, hord, hres, ?_⟩
  intro chess started gameOver
  rw [validMovesEffect_resolved, hres]

/-- Instance of C10: a drag start on `e2` followed by a click on the piece of
`d2` leaves both origins set, the click origin stamped later. -/
theorem preview_follows_latest_origin_witness :
    truthy (run "move" "g1"
      [.dragStart "e2", .click "d2" (some ⟨"p", "w"⟩)]).selectedSquare = true ∧
    truthy (run "move" "g1"
      [.dragStart "e2", .click "d2" (some ⟨"p", "w"⟩)]).from_ = true ∧
    (timedRun "move" "g1" [.dragStart "e2", .click "d2" (some ⟨"p", "w"⟩)]).fromAt <
      (timedRun "move" "g1" [.dragStart "e2", .click "d2" (some ⟨"p", "w"⟩)]).selectedAt ∧
    resolvedOrigin (run "move" "g1" [.dragStart "e2", .click "d2" (some ⟨"p", "w"⟩)])
      = some "d2" :=
  ⟨by decide, by decide,
    (preview_follows_latest_origin "move" "g1"
      [.dragStart "e2", .click "d2" (some ⟨"p", "w"⟩)]).2.1 (by decide) (by decide),
    by decide⟩

/-! ## What the gesture handlers read -/

/-- C11. The effect of a gesture (next click origin, next drag origin, emitted
messages) is the same in two renders that agree on `gameId` and on the two
selection cells, whatever `started`, `gameOver`, `turn`, `color`, the engine,
the clocks and the stored destination list are, and a click reads of its cell
only whether it is occupied. In particular a click on a square other than
the click origin, and a drop with a drag origin, emit their proposal with no
condition on those props or on the destination list. -/
theorem gesture_reads_only_selection (MOVE : String) (p1 p2 : Props)
    (c1 c2 : Component) (hid : p1.gameId = p2.gameId) (hsel : c1.sel = c2.sel) :
    (∀ g, (handle MOVE p1 c1 g).2 = (handle MOVE p2 c2 g).2 ∧
      (handle MOVE p1 c1 g).1.sel = (handle MOVE p2 c2 g).1.sel) ∧
    (∀ sq x y,
      (handle MOVE p1 c1 (.click sq (some x))).2 = (handle MOVE p2 c2 (.click sq (some y))).2 ∧
      (handle MOVE p1 c1 (.click sq (some x))).1.sel
        = (handle MOVE p2 c2 (.click sq (some y))).1.sel) ∧
    (∀ o s square, c1.sel.selectedSquare = some o → o ≠ "" → s ≠ o →
      (handle MOVE p1 c1 (.click s square)).2 =
        [{ event := MOVE, payload := { move := { from_ := o, to_ := s }, gameId := p1.gameId } }]) ∧
    (∀ d s, c1.sel.from_ = some d → d ≠ "" →
      (handle MOVE p1 c1 (.drop s)).2 =
        [{ event := MOVE, payload := { move := { from_ := d, to_ := s }, gameId := p1.gameId } }]) := by
  refine ⟨?_, ?_, ?_, ?_⟩
  · intro g
    simp only [handle, hid, hsel, and_self]
  · intro sq x y
    simp only [handle, step, onClick, hid, hsel, Option.isSome_some, and_self]
  · intro o s square ho hne hs
    have ht : truthy (some o) = true := by simpa [truthy] using hne
    have hs2 : ¬ o = s := fun e => hs e.symm
    simp [handle, step, onClick, ho, ht, hs2]
  · intro d s hd hne
    have ht : truthy (some d) = true := by simpa [truthy] using hne
    simp [handle, step, onDrop, hd, ht]

/-- Instance of C11: the same click on `e4` with click origin `e7` (a black
pawn), once in a finished game viewed by white with an empty destination
list, once in a running game viewed by black with `e8` listed. -/
theorem gesture_reads_only_selection_witness :
    (Props.mk emptyBoard (some "white") false (some "w") true "g1" none).gameId
      = (Props.mk emptyBoard (some "black") true (some "b") false "g1"
          (some promotionEngine)).gameId ∧
    (Component.mk ⟨none, some "e7"⟩ none none false []).sel
      = (Component.mk ⟨none, some "e7"⟩ (some 20) (some 3) true ["e8"]).sel ∧
    (handle "move" (Props.mk emptyBoard (some "white") false (some "w") true "g1" none)
      (Component.mk ⟨none, some "e7"⟩ none none false []) (.click "e4" none)).2 =
      [{ event := "move", payload := { move := { from_ := "e7", to_ := "e4" }, gameId := "g1" } }] :=
  ⟨rfl, rfl,
    (gesture_reads_only_selection "move"
      (Props.mk emptyBoard (some "white") false (some "w") true "g1" none)
      (Props.mk emptyBoard (some "black") true (some "b") false "g1" (some promotionEngine))
      (Component.mk ⟨none, some "e7"⟩ none none false [])
      (Component.mk ⟨none, some "e7"⟩ (some 20) (some 3) true ["e8"]) rfl rfl).2.2.1
      "e7" "e4" none rfl (by decide) (by decide)⟩

/-! ## End-to-end click move -/

/-- C13. With click origin `o` set and no drag origin, a click on any square
`s ≠ o` emits exactly `{from: o, to: s}`, leaves the selection idle, and the
destination list recomputed from the resulting state is empty, whatever the
engine and the game flags are. -/
theorem click_move_end_to_end (MOVE gameId o s : String) (square : Option Piece)
    (st : State) (hsel : st.selectedSquare = some o) (ho : o ≠ "")
    (hfrom : truthy st.from_ = false) (hs : s ≠ o) :
    (onClick MOVE gameId s square st).2 =
      [{ event := MOVE, payload := { move := { from_ := o, to_ := s }, gameId := gameId } }] ∧
    (onClick MOVE gameId s square st).1.selectedSquare = none ∧
    (∀ (chess : Option Chess) (started gameOver : Bool),
      validMovesEffect (onClick MOVE gameId s square st).1.selectedSquare
        (onClick MOVE gameId s square st).1.from_ chess started gameOver = .ok []) := by
  have ht : truthy (some o) = true := by simpa [truthy] using ho
  have hs2 : ¬ o = s := fun e => hs e.symm
  have hstate : (onClick MOVE gameId s square st).1 = { st with selectedSquare := none } := by
    rw [onClick_state, hsel, if_pos ht]
  refine ⟨?_, ?_, ?_⟩
  · simp [onClick, hsel, ht, hs2]
  · rw [hstate]
  · intro chess started gameOver
    rw [hstate]
    unfold validMovesEffect
    rw [activeQuery_falsy none chess started gameOver rfl,
      activeQuery_falsy st.from_ chess started gameOver hfrom]
    rfl

/-- Instance of C13, the scenario of the specification: origin `e2` selected
by click, the engine lists `e3` and `e4`, a click on `e4`. -/
theorem click_move_end_to_end_witness :
    validMovesEffect (some "e2") none (some e2Engine) true false = .ok ["e3", "e4"] ∧
    (onClick "move" "g1" "e4" none ⟨none, some "e2"⟩).2 =
      [{ event := "move", payload := { move := { from_ := "e2", to_ := "e4" }, gameId := "g1" } }] ∧
    (onClick "move" "g1" "e4" none ⟨none, some "e2"⟩).1.selectedSquare = none ∧
    validMovesEffect (onClick "move" "g1" "e4" none ⟨none, some "e2"⟩).1.selectedSquare
      (onClick "move" "g1" "e4" none ⟨none, some "e2"⟩).1.from_ (some e2Engine) true false
        = .ok [] :=
  ⟨rfl,
    (click_move_end_to_end "move" "g1" "e2" "e4" none ⟨none, some "e2"⟩ rfl (by decide) rfl
      (by decide)).1,
    (click_move_end_to_end "move" "g1" "e2" "e4" none ⟨none, some "e2"⟩ rfl (by decide) rfl
      (by decide)).2.1,
    (click_move_end_to_end "move" "g1" "e2" "e4" none ⟨none, some "e2"⟩ rfl (by decide) rfl
      (by decide)).2.2 (some e2Engine) true false⟩

/-! ## Drag end -/

/-- Without a drag start, a gesture leaves an unset `from` cell unset. -/
theorem step_from_none (MOVE gameId : String) (st : State) (g : Gesture)
    (hf : st.from_ = none) (hg : g.isDragStart = false) :
    (step MOVE gameId st g).1.from_ = none := by
  cases g with
  | click sq square =>
    simp only [step, onClick_state]
    by_cases ht : truthy st.selectedSquare = true
    · rw [if_pos ht]; exact hf
    · rw [if_neg ht]
      cases square <;> simp [hf]
  | dragStart sq => simp [Gesture.isDragStart] at hg
  | dragEnd => rfl
  | drop sq =>
    simp only [step, onDrop_state, hf, truthy]
    simp [hf]

/-- Without a drag start, a sequence of gestures leaves an unset `from` cell
unset. -/
theorem runFrom_from_none (MOVE gameId : String) (gs : List Gesture) :
    ∀ st : State, st.from_ = none → (∀ g ∈ gs, g.isDragStart = false) →
      (runFrom MOVE gameId st gs).1.from_ = none := by
  induction gs with
  | nil => intro st hf _; exact hf
  | cons g gs ih =>
    intro st hf hgs
    simp only [runFrom]
    exact ih _ (step_from_none MOVE gameId st g hf (hgs g (List.mem_cons_self g gs)))
      (fun g2 h2 => hgs g2 (List.mem_cons_of_mem g h2))

/-- C14. In every state `onDragEnd` leaves the drag origin unset, emits nothing
and keeps the click origin; a drop that follows, at once or after any
gestures that are not a drag start, emits nothing and changes nothing. -/
theorem onDragEnd_spec (MOVE gameId : String) (st : State) :
    (onDragEnd st).1.from_ = none ∧
    (onDragEnd st).2 = [] ∧
    (onDragEnd st).1.selectedSquare = st.selectedSquare ∧
    (∀ s, onDrop MOVE gameId s (onDragEnd st).1 = ((onDragEnd st).1, [])) ∧
    (∀ gs s, (∀ g ∈ gs, g.isDragStart = false) →
      onDrop MOVE gameId s (runFrom MOVE gameId (onDragEnd st).1 gs).1
        = ((runFrom MOVE gameId (onDragEnd st).1 gs).1, [])) := by
  refine ⟨rfl, rfl, rfl, ?_, ?_⟩
  · intro s
    simp [onDrop, onDragEnd]
  · intro gs s hgs
    have h := runFrom_from_none MOVE gameId gs (onDragEnd st).1 rfl hgs
    unfold onDrop
    rw [h]

/-- Instance of C14: a drag from `e2` ends, a click selects `d2`, and the drop
on `e4` that arrives afterwards emits nothing. -/
theorem onDragEnd_spec_witness :
    (∀ g ∈ [Gesture.click "d2" (some ⟨"p", "w"⟩)], g.isDragStart = false) ∧
    onDrop "move" "g1" "e4"
      (runFrom "move" "g1" (onDragEnd ⟨some "e2", none⟩).1
        [.click "d2" (some ⟨"p", "w"⟩)]).1
      = (⟨none, some "d2"⟩, []) :=
  ⟨by decide,
    (onDragEnd_spec "move" "g1" ⟨some "e2", none⟩).2.2.2.2
      [.click "d2" (some ⟨"p", "w"⟩)] "e4" (by decide)⟩

/-! ## Highlight indicators -/

/-- C15. For every cell and destination list: the dot is drawn iff the name of
the cell is in the list and the cell is empty, the ring iff the name is in
the list and the cell is occupied; so exactly one of the two is drawn when
the name is in the list, none otherwise, and never both. -/
theorem indicators_spec (validMoves : List String) (cell : RenderedCell) :
    (dotShown validMoves cell = true ↔ cell.name ∈ validMoves ∧ cell.square = none) ∧
    (ringShown validMoves cell = true ↔ cell.name ∈ validMoves ∧ cell.square.isSome = true) ∧
    (cell.name ∈ validMoves → (dotShown validMoves cell ≠ ringShown validMoves cell)) ∧
    (cell.name ∉ validMoves →
      dotShown validMoves cell = false ∧ ringShown validMoves cell = false) ∧
    ¬ (dotShown validMoves cell = true ∧ ringShown validMoves cell = true) := by
  unfold dotShown ringShown
  cases hsq : cell.square <;> by_cases hm : cell.name ∈ validMoves <;>
    simp [hm]

/-- Instance of C15: with `e4` and `d5` listed, the empty `e4` shows the dot
only, the occupied `d5` the ring only, and `a1` nothing. -/
theorem indicators_spec_witness :
    "e4" ∈ ["e4", "d5"] ∧
    dotShown ["e4", "d5"] ⟨4, "e4", none⟩ ≠ ringShown ["e4", "d5"] ⟨4, "e4", none⟩ ∧
    dotShown ["e4", "d5"] ⟨4, "e4", none⟩ = true ∧
    ringShown ["e4", "d5"] ⟨3, "d5", some ⟨"p", "b"⟩⟩ = true ∧
    dotShown ["e4", "d5"] ⟨3, "d5", some ⟨"p", "b"⟩⟩ = false ∧
    dotShown ["e4", "d5"] ⟨0, "a1", none⟩ = false :=
  ⟨by decide, (indicators_spec ["e4", "d5"] ⟨4, "e4", none⟩).2.2.1 (by decide),
    by decide, by decide, by decide, by decide⟩

/-! ## Clocks -/

/-- C12. Clock clamping: after a `time_update` event with `w` and `b`
milliseconds the clocks are `max 0 (w / 1000)` and `max 0 (b / 1000)` seconds,
neither is negative, and the event `{white: -500, black: 12345}` gives
`{white: 0, black: 12.345}`; the other state cells are untouched. -/
theorem onTimeUpdate_clamps (w b : ℚ) (c : Component) :
    (onTimeUpdate ⟨w, b⟩ c).whiteTime = some (max 0 (w / 1000)) ∧
    (onTimeUpdate ⟨w, b⟩ c).blackTime = some (max 0 (b / 1000)) ∧
    (∀ t, (onTimeUpdate ⟨w, b⟩ c).whiteTime = some t → 0 ≤ t) ∧
    (∀ t, (onTimeUpdate ⟨w, b⟩ c).blackTime = some t → 0 ≤ t) ∧
    (onTimeUpdate ⟨-500, 12345⟩ c).whiteTime = some 0 ∧
    (onTimeUpdate ⟨-500, 12345⟩ c).blackTime = some 12.345 ∧
    (onTimeUpdate ⟨w, b⟩ c).sel = c.sel ∧
    (onTimeUpdate ⟨w, b⟩ c).validMoves = c.validMoves := by
  refine ⟨rfl, rfl, ?_, ?_, ?_, ?_, rfl, rfl⟩
  · intro t ht
    simp only [onTimeUpdate, Option.some.injEq] at ht
    rw [← ht]
    exact le_max_left _ _
  · intro t ht
    simp only [onTimeUpdate, Option.some.injEq] at ht
    rw [← ht]
    exact le_max_left _ _
  · simp only [onTimeUpdate, Option.some.injEq]
    norm_num
  · simp only [onTimeUpdate, Option.some.injEq]
    norm_num

/-- C17. Reset baseline: the reset effect sets both clocks to 20 seconds
whatever they held, also in the initial state where both are still `null`,
and touches no other state cell. -/
theorem resetEffect_baseline (c : Component) :
    (resetEffect c).whiteTime = some 20 ∧
    (resetEffect c).blackTime = some 20 ∧
    (resetEffect Component.init).whiteTime = some 20 ∧
    (resetEffect Component.init).blackTime = some 20 ∧
    (∀ w b, (resetEffect (onTimeUpdate ⟨w, b⟩ c)).whiteTime = some 20 ∧
      (resetEffect (onTimeUpdate ⟨w, b⟩ c)).blackTime = some 20) ∧
    (resetEffect c).sel = c.sel ∧
    (resetEffect c).validMoves = c.validMoves :=
  ⟨rfl, rfl, rfl, rfl, fun _ _ => ⟨rfl, rfl⟩, rfl, rfl⟩

/-! ## Orientation -/

/-- The names in visual order: the document order, with the rows and the cells
of every row reversed when the viewing color is black. -/
theorem renderBoard_visualNames (board : List (List (Option Piece)))
    (color : Option String) :
    (renderBoard board color).visualNames =
      if color = some "black" then
        ((renderBoard board color).names.reverse).map List.reverse
      else (renderBoard board color).names := by
  unfold RenderedBoard.visualNames RenderedBoard.visual RenderedBoard.names renderBoard
  by_cases hc : color = some "black"
  · subst hc
    simp only [beq_self_eq_true, if_true, List.map_map, List.map_reverse]
    congr 1
    apply List.map_congr_left
    intro row hrow
    obtain ⟨i, hi, rfl⟩ := List.mem_mapIdx.mp hrow
    simp [List.map_reverse]
  · have hb : (color == some "black") = false := by simpa using hc
    simp only [hb, if_neg hc, List.map_map]
    apply List.map_congr_left
    intro row hrow
    obtain ⟨i, hi, rfl⟩ := List.mem_mapIdx.mp hrow
    simp

/-- C18. Orientation: the container is reversed iff the viewing color is
black, and so is every row; on screen the grid of a black viewer is the grid
of any other viewer with the rows and the cells of each row in reverse
order, every other color value giving the document order; and the name
attached to each cell is the same for every color. -/
theorem orientation_spec (board : List (List (Option Piece)))
    (color : Option String) :
    ((renderBoard board color).colReverse = true ↔ color = some "black") ∧
    (∀ row ∈ (renderBoard board color).rows,
      (row.rowReverse = true ↔ color = some "black")) ∧
    (color ≠ some "black" →
      (renderBoard board color).visualNames = (renderBoard board color).names ∧
      (renderBoard board (some "black")).visualNames =
        ((renderBoard board color).visualNames.reverse).map List.reverse) ∧
    (renderBoard board color).names = (renderBoard board (some "black")).names ∧
    (renderBoard board color).names =
      board.mapIdx fun i row => row.mapIdx fun j _ => squareRepresentation i j := by
  refine ⟨?_, ?_, ?_, ?_, renderBoard_names board color⟩
  · simp [renderBoard]
  · intro row hrow
    unfold renderBoard at hrow
    obtain ⟨i, hi, rfl⟩ := List.mem_mapIdx.mp hrow
    simp
  · intro hc
    have h1 : (renderBoard board color).visualNames = (renderBoard board color).names := by
      rw [renderBoard_visualNames, if_neg hc]
    refine ⟨h1, ?_⟩
    rw [h1, renderBoard_visualNames, if_pos rfl, renderBoard_names, renderBoard_names]
  · rw [renderBoard_names, renderBoard_names]

/-- Instance of C18: a white viewer of the empty board sees `a8` at the top
left, a black viewer sees `h1` there. -/
theorem orientation_spec_witness :
    some "white" ≠ some "black" ∧
    (renderBoard emptyBoard (some "white")).visualNames
      = (renderBoard emptyBoard (some "white")).names ∧
    (renderBoard emptyBoard (some "black")).visualNames =
      ((renderBoard emptyBoard (some "white")).visualNames.reverse).map List.reverse ∧
    (renderBoard emptyBoard (some "white")).visualNames.head? =
      some ["a8", "b8", "c8", "d8", "e8", "f8", "g8", "h8"] ∧
    (renderBoard emptyBoard (some "black")).visualNames.head? =
      some ["h1", "g1", "f1", "e1", "d1", "c1", "b1", "a1"] :=
  ⟨by decide,
    ((orientation_spec emptyBoard (some "white")).2.2.1 (by decide)).1,
    ((orientation_spec emptyBoard (some "white")).2.2.1 (by decide)).2,
    by decide, by decide⟩

/-! ## Piece images -/

/-- The address of a piece whose color is not `b`: side `w`, then the type in
lower case. -/
theorem imgSrc_other (type color : String) (hc : color ≠ "b") :
    imgSrc ⟨type, color⟩ = "/" ++ ("w" ++ toLowerCase type) ++ ".png" := by
  simp [imgSrc, hc]

/-- The address of a piece of color `b`: side `b`, then the type as given. -/
theorem imgSrc_black (type : String) :
    imgSrc ⟨type, "b"⟩ = "/" ++ ("b" ++ type) ++ ".png" := by
  simp [imgSrc]

/-- C16 as stated fails at a black queen whose type is written in upper case:
the address keeps the upper-case letter, it is not the one with the
lower-case letter. -/
theorem imgSrc_black_keeps_case :
    imgSrc ⟨"Q", "b"⟩ = "/bQ.png" ∧
    imgSrc ⟨"Q", "b"⟩ ≠ "/b" ++ toLowerCase "Q" ++ ".png" ∧
    imgSrc ⟨"Q", "b"⟩ ≠ "/bq.png" := by
  decide

/-- C16, amended. For a piece whose type is the single letter `t`, the address
is `/`, a two-character code and `.png`. For a color other than `b` the code
is `w` and the lower-case letter, whatever the case of `t`. For the color `b`
the code is `b` and the letter as given, which is the lower-case letter when
`t` is in lower case. -/
theorem imgSrc_code (t : Char) (color : String) :
    (color ≠ "b" →
      imgSrc ⟨String.singleton t, color⟩ =
        String.mk ['/', 'w', t.toLower, '.', 'p', 'n', 'g']) ∧
    imgSrc ⟨String.singleton t, "b"⟩ = String.mk ['/', 'b', t, '.', 'p', 'n', 'g'] ∧
    (t.toLower = t →
      imgSrc ⟨String.singleton t, "b"⟩ =
        String.mk ['/', 'b', t.toLower, '.', 'p', 'n', 'g']) := by
  have hb : imgSrc ⟨String.singleton t, "b"⟩ = String.mk ['/', 'b', t, '.', 'p', 'n', 'g'] := by
    rw [imgSrc_black]
    rfl
  refine ⟨?_, hb, ?_⟩
  · intro hc
    rw [imgSrc_other _ _ hc]
    rfl
  · intro ht
    rw [ht]
    exact hb

/-- Instance of C16 amended: a white queen given in upper case, and a black
queen given in lower case. -/
theorem imgSrc_code_witness :
    "w" ≠ "b" ∧ 'q'.toLower = 'q' ∧
    imgSrc ⟨"Q", "w"⟩ = "/wq.png" ∧
    imgSrc ⟨"q", "b"⟩ = "/bq.png" :=
  ⟨by decide, by decide,
    (imgSrc_code 'Q' "w").1 (by decide),
    (imgSrc_code 'q' "b").2.2 (by decide)⟩

/-! ## Which origin a proposal starts from -/

/-- C19 as stated fails: after a drag start on `e2` and a click on the piece
of `d2` both origins are set, the preview follows `d2`, and a drop on `e4`
proposes a move from `e2`. -/
theorem drop_emits_drag_origin_not_previewed :
    resolvedOrigin (run "move" "g1" [.dragStart "e2", .click "d2" (some ⟨"p", "w"⟩)])
      = some "d2" ∧
    (step "move" "g1" (run "move" "g1" [.dragStart "e2", .click "d2" (some ⟨"p", "w"⟩)])
      (.drop "e4")).2 =
      [{ event := "move", payload := { move := { from_ := "e2", to_ := "e4" }, gameId := "g1" } }] := by
  decide

/-- C19, amended. In every state, reached by gestures or not, a gesture emits
at most one proposal; a proposal emitted by a click starts from the click
origin, which is the previewed origin; a proposal emitted by a drop starts
from the drag origin, which is the previewed origin when the click origin
is unset; drag start and drag end emit nothing. -/
theorem emitted_from_origin (MOVE gameId : String) (st : State) (g : Gesture)
    (e : Emit) (he : e ∈ (step MOVE gameId st g).2) :
    (step MOVE gameId st g).2 = [e] ∧
    ((∃ s square, g = .click s square ∧
        st.selectedSquare = some e.payload.move.from_ ∧
        resolvedOrigin st = some e.payload.move.from_) ∨
     (∃ s, g = .drop s ∧
        st.from_ = some e.payload.move.from_ ∧
        (truthy st.selectedSquare = false →
          resolvedOrigin st = some e.payload.move.from_))) := by
  cases g with
  | click s square =>
    simp only [step, onClick] at he ⊢
    by_cases ht : truthy st.selectedSquare = true
    · cases hsel : st.selectedSquare with
      | none => rw [hsel] at ht; simp [truthy] at ht
      | some o =>
        rw [hsel] at ht
        by_cases ho : o = s
        · subst ho
          simp [hsel, ht] at he
        · simp only [hsel, ht, ho, Bool.not_true, if_false, Bool.false_eq_true,
            List.mem_singleton] at he
          subst he
          refine ⟨by simp [ht, ho], Or.inl ⟨s, square, rfl, rfl, ?_⟩⟩
          simp [resolvedOrigin, hsel, ht]
    · have hf : truthy st.selectedSquare = false := by simpa using ht
      cases square <;> simp [hf] at he
  | dragStart s => simp [step, onDragStart] at he
  | dragEnd => simp [step, onDragEnd] at he
  | drop s =>
    simp only [step, onDrop] at he ⊢
    cases hfrom : st.from_ with
    | none => simp [hfrom] at he
    | some f =>
      by_cases ht : truthy (some f) = true
      · simp only [hfrom, ht, if_true, List.mem_singleton] at he
        subst he
        refine ⟨by simp [ht], Or.inr ⟨s, rfl, rfl, ?_⟩⟩
        intro hs
        simp [resolvedOrigin, hs, hfrom, ht]
      · simp [hfrom, ht] at he

/-- Instance of C19 amended: the drop that directly follows its drag start
proposes from the previewed origin. -/
theorem emitted_from_origin_witness :
    (Emit.mk "move" ⟨⟨"e2", "e4"⟩, "g1"⟩) ∈
      (step "move" "g1" (run "move" "g1" [.dragStart "e2"]) (.drop "e4")).2 ∧
    (step "move" "g1" (run "move" "g1" [.dragStart "e2"]) (.drop "e4")).2 =
      [Emit.mk "move" ⟨⟨"e2", "e4"⟩, "g1"⟩] ∧
    resolvedOrigin (run "move" "g1" [.dragStart "e2"]) = some "e2" :=
  ⟨by decide,
    (emitted_from_origin "move" "g1" (run "move" "g1" [.dragStart "e2"]) (.drop "e4")
      (Emit.mk "move" ⟨⟨"e2", "e4"⟩, "g1"⟩) (by decide)).1,
    by decide⟩

/-! ## Clocks on the profile cards -/

/-- C20 at an unset viewing color, and at `white` and `black` for comparison:
with `white` the board is unreversed and the lower card shows the white
clock, with `black` the board is reversed and the lower card shows the black
clock; with the color unset the board is unreversed, rank 1 at the bottom,
yet the lower card shows the black clock and the upper card the white one. -/
theorem cards_at_unset_color (c : Component) :
    ((renderBoard emptyBoard (some "white")).colReverse = false ∧
      lowerCardTime (some "white") c = c.whiteTime ∧
      upperCardTime (some "white") c = c.blackTime) ∧
    ((renderBoard emptyBoard (some "black")).colReverse = true ∧
      lowerCardTime (some "black") c = c.blackTime ∧
      upperCardTime (some "black") c = c.whiteTime) ∧
    ((renderBoard emptyBoard none).colReverse = false ∧
      (renderBoard emptyBoard none).visualNames.getLast? =
        some ["a1", "b1", "c1", "d1", "e1", "f1", "g1", "h1"] ∧
      lowerCardTime none c = c.blackTime ∧
      upperCardTime none c = c.whiteTime) := by
  refine ⟨⟨by decide, rfl, rfl⟩, ⟨by decide, rfl, rfl⟩, ⟨by decide, by decide, rfl, rfl⟩⟩

end ChessBoard
